import Mathlib

/-!
Verification development for the mtg-json-tools repository.

Shallow embedding of the query runtime: the parameterized SQL builder
(`src/mtg_json_tools/_sql.py`), the view-registration transforms
(`src/mtg_json_tools/connection.py`), the prices ingestion flattener
(`src/mtg_json_tools/queries/prices.py`), the cache manager
(`src/mtg_json_tools/cache.py`), the card bulk lookup
(`src/mtg_json_tools/queries/cards.py`), the booster sheet picker
(`src/mtg_json_tools/booster/simulator.py`) and the pagination splicing
in `queries/legalities.py` / `queries/prices.py`.

Python strings are modelled as Lean `String`; where character-level
computation matters (replace, split, trim) we work on `String.data`
(`List Char`) with executable functions mirroring CPython semantics.
-/

/-! ## Character-level string utilities (models of CPython / DuckDB string ops) -/

/-- Model of CPython `str.replace` on char lists: scan left to right,
replacing non-overlapping occurrences of `pat` by `rep`.  Fuel is the
length of the subject string (each step consumes at least one char when
`pat` is nonempty). -/
def replaceAllAux (pat rep : List Char) : Nat → List Char → List Char
  | 0, s => s
  | _fuel + 1, [] => []
  | fuel + 1, c :: rest =>
    if pat.isPrefixOf (c :: rest) then
      rep ++ replaceAllAux pat rep fuel ((c :: rest).drop pat.length)
    else
      c :: replaceAllAux pat rep fuel rest

/-- Model of CPython `str.replace` (all occurrences). -/
def strReplace (s pat rep : String) : String :=
  if pat.data = [] then s
  else ⟨replaceAllAux pat.data rep.data s.data.length s.data⟩

/-- Splitting helper for `strSplitOn`: accumulates the current field
(reversed) and splits at each occurrence of `sep`. -/
def splitOnAux (sep : List Char) (cur : List Char) : Nat → List Char → List (List Char)
  | 0, s => [cur.reverse ++ s]
  | _fuel + 1, [] => [cur.reverse]
  | fuel + 1, c :: rest =>
    if sep.isPrefixOf (c :: rest) then
      cur.reverse :: splitOnAux sep [] fuel ((c :: rest).drop sep.length)
    else
      splitOnAux sep (c :: cur) fuel rest

/-- Model of DuckDB `string_split(s, sep)` (same behaviour as Python
`s.split(sep)` for a nonempty separator): split on every occurrence of
`sep`; a string not containing `sep` yields the one-element list. -/
def strSplitOn (s sep : String) : List String :=
  if sep.data = [] then [s]
  else (splitOnAux sep.data [] s.data.length s.data).map List.asString

/-- Model of SQL `TRIM(s)` (DuckDB default: strips space characters from
both ends, not general whitespace). -/
def sqlTrim (s : String) : String :=
  ⟨((s.data.dropWhile (· = ' ')).reverse.dropWhile (· = ' ')).reverse⟩

/-- Model of Python `s.endswith(suf)` via char lists. -/
def strEndsWith (s suf : String) : Bool :=
  suf.data.isSuffixOf s.data

/-- Model of Python `sep.join(parts)`. -/
def joinSep (sep : String) : List String → String
  | [] => ""
  | [x] => x
  | x :: xs => x ++ sep ++ joinSep sep xs

/-- Positional placeholder text `$N` as produced by the Python f-strings. -/
def placeholder (n : Nat) : String := "$" ++ toString n

/-- Decimal digits of the fractional part of a nonnegative rational,
used to model CPython float formatting of the fuzzy threshold. -/
def fracDigits : Nat → ℚ → List Char
  | 0, _ => []
  | n + 1, q =>
    if q ≤ 0 then []
    else
      let d := ⌊q * 10⌋
      Nat.digitChar d.toNat :: fracDigits n (q * 10 - (d : ℚ))

/-- Model of CPython `str(threshold)` for the finite-decimal thresholds
used with `where_fuzzy` (e.g. `str(0.8) = "0.8"`, `str(1.0) = "1.0"`). -/
def decStr (q : ℚ) : String :=
  let ip : Int := ⌊q⌋
  let fr : ℚ := q - (ip : ℚ)
  toString ip ++ "." ++ (if fr = 0 then "0" else ⟨fracDigits 20 fr⟩)

/-! ## SQLBuilder (`src/mtg_json_tools/_sql.py`)

The builder state is polymorphic in the type `α` of user-supplied
parameter values (Python passes arbitrary objects; only their position
matters to the builder).  Fields mirror `SQLBuilder.__init__`. -/

structure SQLBuilder (α : Type) where
  sel : List String
  dist : Bool
  base : String
  joins : List String
  whereCs : List String
  params : List α
  groupBys : List String
  havings : List String
  orderBys : List String
  limitN : Option Int
  offsetN : Option Int

/-- Embedding of `SQLBuilder.__init__(base_table)`. -/
def SQLBuilder.init (t : String) : SQLBuilder α :=
  ⟨["*"], false, t, [], [], [], [], [], [], none, none⟩

/-- Embedding of the `$i → $(offset+i)` remapping loop in
`SQLBuilder.where` / `SQLBuilder.having`: sequential `str.replace` for
`i = m` down to `1`. -/
def SQLBuilder.remap (offset m : Nat) (cond : String) : String :=
  (List.range m).reverse.foldl
    (fun c i => strReplace c (placeholder (i + 1)) (placeholder (offset + i + 1))) cond

/-- Embedding of `SQLBuilder.where(condition, *params)`. -/
def SQLBuilder.whereCond (b : SQLBuilder α) (cond : String) (ps : List α) : SQLBuilder α :=
  { b with
    whereCs := b.whereCs ++ [SQLBuilder.remap b.params.length ps.length cond]
    params := b.params ++ ps }

/-- Embedding of `SQLBuilder.where_like(column, value)`. -/
def SQLBuilder.where_like (b : SQLBuilder α) (col : String) (v : α) : SQLBuilder α :=
  { b with
    whereCs := b.whereCs ++
      ["LOWER(" ++ col ++ ") LIKE LOWER(" ++ placeholder (b.params.length + 1) ++ ")"]
    params := b.params ++ [v] }

/-- Embedding of `SQLBuilder.where_in(column, values)`: an empty list
appends the conjunct `FALSE`; otherwise one placeholder per value. -/
def SQLBuilder.where_in (b : SQLBuilder α) (col : String) (vs : List α) : SQLBuilder α :=
  if vs.isEmpty then { b with whereCs := b.whereCs ++ ["FALSE"] }
  else
    { b with
      whereCs := b.whereCs ++
        [col ++ " IN (" ++
          joinSep ", "
            ((List.range vs.length).map (fun i => placeholder (b.params.length + i + 1))) ++
          ")"]
      params := b.params ++ vs }

/-- Embedding of `SQLBuilder.where_eq(column, value)`. -/
def SQLBuilder.where_eq (b : SQLBuilder α) (col : String) (v : α) : SQLBuilder α :=
  { b with
    whereCs := b.whereCs ++ [col ++ " = " ++ placeholder (b.params.length + 1)]
    params := b.params ++ [v] }

/-- Embedding of `SQLBuilder.where_gte(column, value)`. -/
def SQLBuilder.where_gte (b : SQLBuilder α) (col : String) (v : α) : SQLBuilder α :=
  { b with
    whereCs := b.whereCs ++ [col ++ " >= " ++ placeholder (b.params.length + 1)]
    params := b.params ++ [v] }

/-- Embedding of `SQLBuilder.where_lte(column, value)`. -/
def SQLBuilder.where_lte (b : SQLBuilder α) (col : String) (v : α) : SQLBuilder α :=
  { b with
    whereCs := b.whereCs ++ [col ++ " <= " ++ placeholder (b.params.length + 1)]
    params := b.params ++ [v] }

/-- Embedding of `SQLBuilder.where_regex(column, pattern)`. -/
def SQLBuilder.where_regex (b : SQLBuilder α) (col : String) (v : α) : SQLBuilder α :=
  { b with
    whereCs := b.whereCs ++
      ["regexp_matches(" ++ col ++ ", " ++ placeholder (b.params.length + 1) ++ ")"]
    params := b.params ++ [v] }

/-- Embedding of `SQLBuilder.where_fuzzy(column, value, threshold)`:
raises `ValueError` when the threshold is outside `[0, 1]`, otherwise
interpolates the (validated, numeric) threshold into the SQL text and
binds the target value as a parameter. -/
def SQLBuilder.where_fuzzy (b : SQLBuilder α) (col : String) (v : α) (th : ℚ) :
    Except String (SQLBuilder α) :=
  if 0 ≤ th ∧ th ≤ 1 then
    .ok
      { b with
        whereCs := b.whereCs ++
          ["jaro_winkler_similarity(" ++ col ++ ", " ++
            placeholder (b.params.length + 1) ++ ") > " ++ decStr th]
        params := b.params ++ [v] }
  else .error "threshold must be a number between 0 and 1"

/-- Loop body of `SQLBuilder.where_or`: for each `(cond, param)` pair,
replace `$1` by the next free slot and append the param. -/
def whereOrAux : List (String × α) → List String → List α → List String × List α
  | [], parts, ps => (parts, ps)
  | (c, p) :: rest, parts, ps =>
    whereOrAux rest (parts ++ [strReplace c "$1" (placeholder (ps.length + 1))]) (ps ++ [p])

/-- Embedding of `SQLBuilder.where_or(*conditions)`. -/
def SQLBuilder.where_or (b : SQLBuilder α) (conds : List (String × α)) : SQLBuilder α :=
  if conds.isEmpty then b
  else
    let r := whereOrAux conds [] b.params
    { b with
      whereCs := b.whereCs ++ ["(" ++ joinSep " OR " r.1 ++ ")"]
      params := r.2 }

/-- Embedding of `SQLBuilder.group_by(*columns)`. -/
def SQLBuilder.group_by (b : SQLBuilder α) (cols : List String) : SQLBuilder α :=
  { b with groupBys := b.groupBys ++ cols }

/-- Embedding of `SQLBuilder.having(condition, *params)` (same remap as
`where`). -/
def SQLBuilder.havingCond (b : SQLBuilder α) (cond : String) (ps : List α) : SQLBuilder α :=
  { b with
    havings := b.havings ++ [SQLBuilder.remap b.params.length ps.length cond]
    params := b.params ++ ps }

/-- Embedding of `SQLBuilder.order_by(*clauses)`. -/
def SQLBuilder.order_by (b : SQLBuilder α) (cs : List String) : SQLBuilder α :=
  { b with orderBys := b.orderBys ++ cs }

/-- Embedding of `SQLBuilder.limit(n)`: `TypeError` on a negative value
(the non-integer case is excluded by typing). -/
def SQLBuilder.limit (b : SQLBuilder α) (n : Int) : Except String (SQLBuilder α) :=
  if n < 0 then .error "limit must be a non-negative integer"
  else .ok { b with limitN := some n }

/-- Embedding of `SQLBuilder.offset(n)`. -/
def SQLBuilder.offset (b : SQLBuilder α) (n : Int) : Except String (SQLBuilder α) :=
  if n < 0 then .error "offset must be a non-negative integer"
  else .ok { b with offsetN := some n }

/-- Embedding of `SQLBuilder.build()`: joins the clause parts with
newlines and returns the SQL text together with the parameter list. -/
def SQLBuilder.build (b : SQLBuilder α) : String × List α :=
  let d := if b.dist then "DISTINCT " else ""
  let parts :=
    ["SELECT " ++ d ++ joinSep ", " b.sel, "FROM " ++ b.base] ++ b.joins ++
    (if b.whereCs = [] then [] else ["WHERE " ++ joinSep " AND " b.whereCs]) ++
    (if b.groupBys = [] then [] else ["GROUP BY " ++ joinSep ", " b.groupBys]) ++
    (if b.havings = [] then [] else ["HAVING " ++ joinSep " AND " b.havings]) ++
    (if b.orderBys = [] then [] else ["ORDER BY " ++ joinSep ", " b.orderBys]) ++
    (match b.limitN with | some n => ["LIMIT " ++ toString n] | none => []) ++
    (match b.offsetN with | some n => ["OFFSET " ++ toString n] | none => [])
  (joinSep "\n" parts, b.params)

/-! ### Builder call sequences

A `SqlOp` is one public builder call; `applyOps` runs a sequence from a
fresh builder, propagating the exceptions `where_fuzzy` / `limit` /
`offset` can raise. -/

inductive SqlOp (α : Type) where
  | sel (cols : List String)
  | dist
  | join (clause : String)
  | whereCond (cond : String) (ps : List α)
  | where_like (col : String) (v : α)
  | where_in (col : String) (vs : List α)
  | where_eq (col : String) (v : α)
  | where_gte (col : String) (v : α)
  | where_lte (col : String) (v : α)
  | where_regex (col : String) (v : α)
  | where_fuzzy (col : String) (v : α) (th : ℚ)
  | where_or (conds : List (String × α))
  | group_by (cols : List String)
  | havingCond (cond : String) (ps : List α)
  | order_by (cs : List String)
  | limit (n : Int)
  | offset (n : Int)

/-- Run one builder call. -/
def applyOp (b : SQLBuilder α) : SqlOp α → Except String (SQLBuilder α)
  | .sel cols => .ok { b with sel := cols }
  | .dist => .ok { b with dist := true }
  | .join c => .ok { b with joins := b.joins ++ [c] }
  | .whereCond c ps => .ok (b.whereCond c ps)
  | .where_like col v => .ok (b.where_like col v)
  | .where_in col vs => .ok (b.where_in col vs)
  | .where_eq col v => .ok (b.where_eq col v)
  | .where_gte col v => .ok (b.where_gte col v)
  | .where_lte col v => .ok (b.where_lte col v)
  | .where_regex col v => .ok (b.where_regex col v)
  | .where_fuzzy col v th => b.where_fuzzy col v th
  | .where_or conds => .ok (b.where_or conds)
  | .group_by cols => .ok (b.group_by cols)
  | .havingCond c ps => .ok (b.havingCond c ps)
  | .order_by cs => .ok (b.order_by cs)
  | .limit n => b.limit n
  | .offset n => b.offset n

/-- Run a sequence of builder calls. -/
def applyOps : List (SqlOp α) → SQLBuilder α → Except String (SQLBuilder α)
  | [], b => .ok b
  | op :: rest, b =>
    match applyOp b op with
    | .ok b2 => applyOps rest b2
    | .error e => .error e

/-- Rename the user-supplied values of one call (shapes unchanged). -/
def mapOp (f : α → β) : SqlOp α → SqlOp β
  | .sel cols => .sel cols
  | .dist => .dist
  | .join c => .join c
  | .whereCond c ps => .whereCond c (ps.map f)
  | .where_like col v => .where_like col (f v)
  | .where_in col vs => .where_in col (vs.map f)
  | .where_eq col v => .where_eq col (f v)
  | .where_gte col v => .where_gte col (f v)
  | .where_lte col v => .where_lte col (f v)
  | .where_regex col v => .where_regex col (f v)
  | .where_fuzzy col v th => .where_fuzzy col (f v) th
  | .where_or conds => .where_or (conds.map (fun cp => (cp.1, f cp.2)))
  | .group_by cols => .group_by cols
  | .havingCond c ps => .havingCond c (ps.map f)
  | .order_by cs => .order_by cs
  | .limit n => .limit n
  | .offset n => .offset n

/-- Rename the accumulated parameter values of a builder state. -/
def mapBuilder (f : α → β) (b : SQLBuilder α) : SQLBuilder β :=
  { sel := b.sel, dist := b.dist, base := b.base, joins := b.joins,
    whereCs := b.whereCs, params := b.params.map f, groupBys := b.groupBys,
    havings := b.havings, orderBys := b.orderBys, limitN := b.limitN,
    offsetN := b.offsetN }

/-- User-supplied values carried by one builder call, in binding order. -/
def opValues : SqlOp α → List α
  | .sel _ => []
  | .dist => []
  | .join _ => []
  | .whereCond _ ps => ps
  | .where_like _ v => [v]
  | .where_in _ vs => vs
  | .where_eq _ v => [v]
  | .where_gte _ v => [v]
  | .where_lte _ v => [v]
  | .where_regex _ v => [v]
  | .where_fuzzy _ v _ => [v]
  | .where_or conds => conds.map Prod.snd
  | .group_by _ => []
  | .havingCond _ ps => ps
  | .order_by _ => []
  | .limit _ => []
  | .offset _ => []

/-! ### Lemmas: the SQL text never depends on parameter values -/

theorem whereOrAux_map (f : α → β) :
    ∀ (conds : List (String × α)) (parts : List String) (ps : List α),
      whereOrAux (conds.map (fun cp => (cp.1, f cp.2))) parts (ps.map f)
        = ((whereOrAux conds parts ps).1, (whereOrAux conds parts ps).2.map f)
  | [], _, _ => rfl
  | (c, p) :: rest, parts, ps => by
    simp only [List.map_cons, whereOrAux, List.length_map]
    rw [show (ps.map f ++ [f p]) = (ps ++ [p]).map f by simp]
    exact whereOrAux_map f rest _ (ps ++ [p])

theorem whereOrAux_params (conds : List (String × α)) :
    ∀ (parts : List String) (ps : List α),
      (whereOrAux conds parts ps).2 = ps ++ conds.map Prod.snd := by
  induction conds with
  | nil => intro parts ps; simp [whereOrAux]
  | cons cp rest ih =>
    intro parts ps
    cases cp with
    | mk c p => simp [whereOrAux, ih]

theorem applyOp_map (f : α → β) (b : SQLBuilder α) (op : SqlOp α) :
    applyOp (mapBuilder f b) (mapOp f op) = (applyOp b op).map (mapBuilder f) := by
  cases op with
  | sel cols => rfl
  | dist => rfl
  | join c => rfl
  | whereCond c ps =>
    simp [applyOp, mapOp, mapBuilder, SQLBuilder.whereCond, Except.map]
  | where_like col v =>
    simp [applyOp, mapOp, mapBuilder, SQLBuilder.where_like, Except.map]
  | where_in col vs =>
    cases vs with
    | nil => rfl
    | cons v rest =>
      simp [applyOp, mapOp, mapBuilder, SQLBuilder.where_in, Except.map, List.isEmpty]
  | where_eq col v =>
    simp [applyOp, mapOp, mapBuilder, SQLBuilder.where_eq, Except.map]
  | where_gte col v =>
    simp [applyOp, mapOp, mapBuilder, SQLBuilder.where_gte, Except.map]
  | where_lte col v =>
    simp [applyOp, mapOp, mapBuilder, SQLBuilder.where_lte, Except.map]
  | where_regex col v =>
    simp [applyOp, mapOp, mapBuilder, SQLBuilder.where_regex, Except.map]
  | where_fuzzy col v th =>
    simp only [applyOp, mapOp, SQLBuilder.where_fuzzy]
    split
    · simp [mapBuilder, Except.map]
    · rfl
  | where_or conds =>
    cases conds with
    | nil => rfl
    | cons cp rest =>
      simp only [applyOp, mapOp, SQLBuilder.where_or, List.map_cons, List.isEmpty, Except.map]
      have h := whereOrAux_map f (cp :: rest) [] b.params
      simp only [List.map_cons] at h
      rw [show (mapBuilder f b).params = b.params.map f from rfl, h]
      simp [mapBuilder]
  | group_by cols =>
    simp [applyOp, mapOp, mapBuilder, SQLBuilder.group_by, Except.map]
  | havingCond c ps =>
    simp [applyOp, mapOp, mapBuilder, SQLBuilder.havingCond, Except.map]
  | order_by cs =>
    simp [applyOp, mapOp, mapBuilder, SQLBuilder.order_by, Except.map]
  | limit n =>
    simp only [applyOp, mapOp, SQLBuilder.limit]
    split
    · rfl
    · simp [mapBuilder, Except.map]
  | offset n =>
    simp only [applyOp, mapOp, SQLBuilder.offset]
    split
    · rfl
    · simp [mapBuilder, Except.map]

theorem applyOps_map (f : α → β) :
    ∀ (ops : List (SqlOp α)) (b : SQLBuilder α),
      applyOps (ops.map (mapOp f)) (mapBuilder f b) = (applyOps ops b).map (mapBuilder f)
  | [], _ => rfl
  | op :: rest, b => by
    simp only [List.map_cons, applyOps, applyOp_map f b op]
    cases applyOp b op with
    | ok b2 => exact applyOps_map f rest b2
    | error e => rfl

theorem build_mapBuilder_fst (f : α → β) (b : SQLBuilder α) :
    ((mapBuilder f b).build).1 = (b.build).1 := rfl

theorem build_mapBuilder_snd (f : α → β) (b : SQLBuilder α) :
    ((mapBuilder f b).build).2 = (b.build).2.map f := rfl

theorem mapBuilder_init (f : α → β) (t : String) :
    mapBuilder f (SQLBuilder.init t) = SQLBuilder.init t := rfl

theorem applyOp_params (op : SqlOp α) (b b2 : SQLBuilder α)
    (h : applyOp b op = .ok b2) : b2.params = b.params ++ opValues op := by
  cases op with
  | sel cols =>
    simp only [applyOp, Except.ok.injEq] at h; subst h; simp [opValues]
  | dist =>
    simp only [applyOp, Except.ok.injEq] at h; subst h; simp [opValues]
  | join c =>
    simp only [applyOp, Except.ok.injEq] at h; subst h; simp [opValues]
  | whereCond c ps =>
    simp only [applyOp, Except.ok.injEq] at h; subst h
    simp [SQLBuilder.whereCond, opValues]
  | where_like col v =>
    simp only [applyOp, Except.ok.injEq] at h; subst h
    simp [SQLBuilder.where_like, opValues]
  | where_in col vs =>
    simp only [applyOp, Except.ok.injEq] at h; subst h
    cases vs with
    | nil => simp [SQLBuilder.where_in, opValues, List.isEmpty]
    | cons v rest => simp [SQLBuilder.where_in, opValues, List.isEmpty]
  | where_eq col v =>
    simp only [applyOp, Except.ok.injEq] at h; subst h
    simp [SQLBuilder.where_eq, opValues]
  | where_gte col v =>
    simp only [applyOp, Except.ok.injEq] at h; subst h
    simp [SQLBuilder.where_gte, opValues]
  | where_lte col v =>
    simp only [applyOp, Except.ok.injEq] at h; subst h
    simp [SQLBuilder.where_lte, opValues]
  | where_regex col v =>
    simp only [applyOp, Except.ok.injEq] at h; subst h
    simp [SQLBuilder.where_regex, opValues]
  | where_fuzzy col v th =>
    simp only [applyOp, SQLBuilder.where_fuzzy] at h
    split at h
    · simp only [Except.ok.injEq] at h; subst h; simp [opValues]
    · exact absurd h (by simp)
  | where_or conds =>
    simp only [applyOp, Except.ok.injEq] at h; subst h
    cases conds with
    | nil => simp [SQLBuilder.where_or, opValues, List.isEmpty]
    | cons cp rest =>
      simp [SQLBuilder.where_or, opValues, List.isEmpty, whereOrAux_params]
  | group_by cols =>
    simp only [applyOp, Except.ok.injEq] at h; subst h
    simp [SQLBuilder.group_by, opValues]
  | havingCond c ps =>
    simp only [applyOp, Except.ok.injEq] at h; subst h
    simp [SQLBuilder.havingCond, opValues]
  | order_by cs =>
    simp only [applyOp, Except.ok.injEq] at h; subst h
    simp [SQLBuilder.order_by, opValues]
  | limit n =>
    simp only [applyOp, SQLBuilder.limit] at h
    split at h
    · exact absurd h (by simp)
    · simp only [Except.ok.injEq] at h; subst h; simp [opValues]
  | offset n =>
    simp only [applyOp, SQLBuilder.offset] at h
    split at h
    · exact absurd h (by simp)
    · simp only [Except.ok.injEq] at h; subst h; simp [opValues]

theorem applyOps_params :
    ∀ (ops : List (SqlOp α)) (b b2 : SQLBuilder α),
      applyOps ops b = .ok b2 → b2.params = b.params ++ ops.flatMap opValues
  | [], b, b2, h => by
    simp only [applyOps, Except.ok.injEq] at h
    subst h; simp
  | op :: rest, b, b2, h => by
    simp only [applyOps] at h
    cases hop : applyOp b op with
    | ok bmid =>
      rw [hop] at h
      have hrec := applyOps_params rest bmid b2 h
      rw [hrec, applyOp_params op b bmid hop]
      simp
    | error e => rw [hop] at h; exact absurd h (by simp)

/-- Claim C1: parameter isolation of the query builder.  For every
sequence of builder calls, the SQL text returned by `build()` is
invariant under any renaming of the user-supplied values (so no value
can occur in, or influence, the SQL text — values are referenced there
only via the `$N` placeholders the builder itself generates), and the
returned parameter list is exactly the user-supplied values in binding
order (renamed pointwise). -/
theorem C1_sqlbuilder_parameter_isolation {α β : Type} (t : String)
    (ops : List (SqlOp α)) (f : α → β) :
    ((applyOps (ops.map (mapOp f)) (SQLBuilder.init t)).map (fun b => (SQLBuilder.build b).1)
        = (applyOps ops (SQLBuilder.init t)).map (fun b => (SQLBuilder.build b).1))
    ∧ ((applyOps (ops.map (mapOp f)) (SQLBuilder.init t)).map (fun b => (SQLBuilder.build b).2)
        = (applyOps ops (SQLBuilder.init t)).map (fun b => ((SQLBuilder.build b).2).map f))
    ∧ ((applyOps ops (SQLBuilder.init t)).toOption.map (fun b => (SQLBuilder.build b).2)
        = (applyOps ops (SQLBuilder.init t)).toOption.map (fun _ => ops.flatMap opValues)) := by
  have key : applyOps (ops.map (mapOp f)) (SQLBuilder.init t)
      = (applyOps ops (SQLBuilder.init t)).map (mapBuilder f) := by
    rw [← mapBuilder_init f t]
    exact applyOps_map f ops _
  refine ⟨?_, ?_, ?_⟩
  · rw [key]
    cases applyOps ops (SQLBuilder.init t) <;>
      simp [Except.map, build_mapBuilder_fst]
  · rw [key]
    cases applyOps ops (SQLBuilder.init t) <;>
      simp [Except.map, build_mapBuilder_snd]
  · cases hh : applyOps ops (SQLBuilder.init t) with
    | error e => rfl
    | ok b2 =>
      have hp := applyOps_params ops (SQLBuilder.init t) b2 hh
      simp [SQLBuilder.build, Except.toOption, hp, SQLBuilder.init]

/-- Claim C2 (evidence of a code bug): the `$i → $(offset+i)` remap in
`SQLBuilder.where` is performed by sequential textual `str.replace`
from `$M` down to `$1`, so with 10 parameters already accumulated the
call `where("a = $1 AND b = $2", x, y)` first turns `$2` into `$12` and
then the `$1` replacement also rewrites the `$1` inside the freshly
written `$12`, producing `a = $11 AND b = $112` instead of the
documented `a = $11 AND b = $12` (`$112` exceeds the 12 bound
parameters, so the query is invalid). -/
theorem C2_placeholder_remap_collision :
    ((((SQLBuilder.init "t").where_in "c"
          ["v1", "v2", "v3", "v4", "v5", "v6", "v7", "v8", "v9", "v10"]).whereCond
          "a = $1 AND b = $2" ["x", "y"]).whereCs.getLast?
        = some "a = $11 AND b = $112")
    ∧ ("a = $11 AND b = $112" : String) ≠ "a = $11 AND b = $12" := by
  constructor
  · decide
  · decide

/-! ## View registration (`src/mtg_json_tools/connection.py`) -/

/-- Embedding of the `cards` entry of `_STATIC_LIST_COLUMNS`. -/
def cardsStaticListCols : List String :=
  ["artistIds", "attractionLights", "availability", "boosterTypes", "cardParts",
   "colorIdentity", "colorIndicator", "colors", "finishes", "frameEffects",
   "keywords", "originalPrintings", "otherFaceIds", "printings", "producedMana",
   "promoTypes", "rebalancedPrintings", "subsets", "subtypes", "supertypes",
   "types", "variations"]

/-- Embedding of the `tokens` entry of `_STATIC_LIST_COLUMNS`. -/
def tokensStaticListCols : List String :=
  ["artistIds", "availability", "boosterTypes", "colorIdentity", "colorIndicator",
   "colors", "finishes", "frameEffects", "keywords", "otherFaceIds",
   "producedMana", "promoTypes", "reverseRelated", "subtypes", "supertypes",
   "types"]

/-- Embedding of `_STATIC_LIST_COLUMNS` as a lookup by view name. -/
def staticListColumns (view : String) : List String :=
  if view = "cards" then cardsStaticListCols
  else if view = "tokens" then tokensStaticListCols
  else []

/-- Embedding of `_IGNORED_COLUMNS`. -/
def ignoredColumns : List String :=
  ["text", "originalText", "flavorText", "printedText", "identifiers",
   "legalities", "leadershipSkills", "purchaseUrls", "relatedCards", "rulings",
   "sourceProducts", "foreignData", "translations", "toughness", "status",
   "format", "uris", "scryfallUri"]

/-- Embedding of `_JSON_CAST_COLUMNS`. -/
def jsonCastColumns : List String :=
  ["identifiers", "legalities", "leadershipSkills", "purchaseUrls",
   "relatedCards", "rulings", "sourceProducts", "foreignData", "translations"]

/-- Lexicographic code-point comparison on char lists (model of Python
string `<=`, built structurally so it evaluates in the kernel). -/
def charListLe : List Char → List Char → Bool
  | [], _ => true
  | _ :: _, [] => false
  | c :: cs, d :: ds =>
    if c.toNat < d.toNat then true
    else if d.toNat < c.toNat then false
    else charListLe cs ds

/-- String comparison used by the `sorted(...)` model. -/
def strLeB (a b : String) : Bool := charListLe a.data b.data

/-- Stable insertion of a string into a sorted list (model of Python
`sorted` on strings). -/
def insortString (x : String) : List String → List String
  | [] => [x]
  | y :: ys => if strLeB x y then x :: y :: ys else y :: insortString x ys

/-- Model of Python `sorted(strings)`. -/
def sortStrings (l : List String) : List String := l.foldr insortString []

/-- Model of collapsing a Python `set` of strings to its member list
(only membership matters downstream). -/
def dedupStrings : List String → List String
  | [] => []
  | x :: xs =>
    if (dedupStrings xs).contains x then dedupStrings xs else x :: dedupStrings xs

/-- Candidate list-columns in `Connection._build_csv_replace`: layer 1 is
the static baseline for the view, layer 2 the plural-name heuristic over
the VARCHAR schema columns minus the blocklist. -/
def csvCandidates (view : String) (schema : List (String × String)) : List String :=
  staticListColumns view ++
    schema.filterMap (fun ct =>
      if (ct.2 == "VARCHAR") && !(ignoredColumns.contains ct.1)
          && strEndsWith ct.1 "s"
      then some ct.1 else none)

/-- Final transformed columns of `_build_csv_replace`: candidates that
exist as VARCHAR in this file, sorted (`sorted(...)` over the candidate
set in the source). -/
def csvFinalCols (view : String) (schema : List (String × String)) : List String :=
  sortStrings ((dedupStrings (csvCandidates view schema)).filter
    (fun c => schema.lookup c == some "VARCHAR"))

/-- Row-level semantics of one CSV-list REPLACE expression:
`CASE WHEN c IS NULL OR TRIM(c) = THE EMPTY STRING THEN []::VARCHAR[]
ELSE string_split(c, ', ') END`. -/
def csvCellTransform (cell : Option String) : List String :=
  match cell with
  | none => []
  | some s => if sqlTrim s = "" then [] else strSplitOn s ", "

/-- Output of the registered view for one cell. -/
inductive CellOut where
  | arr (xs : List String)
  | jsonCast (v : Option String)
  | pass (v : Option String)
deriving DecidableEq

/-- Row-level semantics of the view projection synthesized by
`_build_csv_replace`: selected CSV-list columns are rewritten by the
CASE expression, JSON-string columns are TRY-cast, everything else
passes through. -/
def viewCell (view : String) (schema : List (String × String)) (c : String)
    (v : Option String) : CellOut :=
  if (csvFinalCols view schema).contains c then .arr (csvCellTransform v)
  else if jsonCastColumns.contains c && (schema.lookup c == some "VARCHAR") then
    .jsonCast v
  else .pass v

/-! ### Lemmas for the CSV-list column selection -/

theorem mem_insortString (x y : String) (l : List String) :
    y ∈ insortString x l ↔ y = x ∨ y ∈ l := by
  induction l with
  | nil => simp [insortString]
  | cons z zs ih =>
    simp only [insortString]
    split
    · simp
    · simp only [List.mem_cons, ih]
      tauto

theorem mem_sortStrings (y : String) (l : List String) :
    y ∈ sortStrings l ↔ y ∈ l := by
  induction l with
  | nil => simp [sortStrings]
  | cons x xs ih =>
    simp only [sortStrings, List.foldr_cons] at *
    rw [mem_insortString]
    simp [ih]

theorem mem_dedupStrings (y : String) (l : List String) :
    y ∈ dedupStrings l ↔ y ∈ l := by
  induction l with
  | nil => simp [dedupStrings]
  | cons x xs ih =>
    simp only [dedupStrings]
    split
    · rename_i hc
      simp only [List.mem_cons, ih]
      constructor
      · exact Or.inr
      · rintro (rfl | hy)
        · exact ih.mp (by simpa using hc)
        · exact hy
    · simp [ih]

theorem lookup_of_mem_nodup :
    ∀ (l : List (String × String)) (c v : String),
      (l.map Prod.fst).Nodup → (c, v) ∈ l → l.lookup c = some v := by
  intro l
  induction l with
  | nil => intro c v _ h; simp at h
  | cons kv rest ih =>
    intro c v hn hm
    simp only [List.map_cons, List.nodup_cons] at hn
    rcases List.mem_cons.mp hm with h | h
    · rw [← h]
      simp [List.lookup]
    · have hne : kv.1 ≠ c := by
        intro he
        exact hn.1 (by
          rw [he]
          exact List.mem_map.mpr ⟨(c, v), h, rfl⟩)
      cases kv with
      | mk k w =>
        simp only at hne
        have hck : (c == k) = false := by
          simp only [beq_eq_false_iff_ne, ne_eq]
          exact fun hh => hne hh.symm
        simp only [List.lookup, hck]
        exact ih c v hn.2 h

theorem mem_of_lookup_eq_some :
    ∀ (l : List (String × String)) (c v : String),
      l.lookup c = some v → (c, v) ∈ l := by
  intro l
  induction l with
  | nil => intro c v h; simp [List.lookup] at h
  | cons kv rest ih =>
    intro c v h
    cases kv with
    | mk k w =>
      by_cases he : c = k
      · subst he
        simp only [List.lookup, beq_self_eq_true] at h
        simp only [Option.some.injEq] at h
        subst h
        exact List.mem_cons_self _ _
      · have hck : (c == k) = false := by
          simp only [beq_eq_false_iff_ne, ne_eq]
          exact he
        simp only [List.lookup, hck] at h
        exact List.mem_cons_of_mem _ (ih c v h)

theorem static_not_ignored (view : String) :
    ∀ c ∈ staticListColumns view, c ∉ ignoredColumns := by
  intro c hc
  unfold staticListColumns at hc
  split at hc
  · exact (by decide : ∀ x ∈ cardsStaticListCols, x ∉ ignoredColumns) c hc
  · split at hc
    · exact (by decide : ∀ x ∈ tokensStaticListCols, x ∉ ignoredColumns) c hc
    · simp at hc

/-- Claim C4: CSV-list column transform.  A column is rewritten by the
registered view exactly when it is VARCHAR in the parquet schema, is in
the per-view static baseline or ends in `s`, and is not blocklisted;
the rewrite maps a NULL or blank cell to the empty array and any other
cell to the split on `", "`. -/
theorem C4_csv_list_transform (view : String) (schema : List (String × String))
    (_hs : (schema.map Prod.fst).Nodup) :
    (∀ c : String, c ∈ csvFinalCols view schema ↔
        (schema.lookup c = some "VARCHAR"
          ∧ (c ∈ staticListColumns view ∨ strEndsWith c "s" = true)
          ∧ c ∉ ignoredColumns))
    ∧ (∀ (c : String) (v : Option String), c ∈ csvFinalCols view schema →
        viewCell view schema c v = .arr (csvCellTransform v))
    ∧ (csvCellTransform none = [])
    ∧ (∀ s, csvCellTransform (some s)
        = if sqlTrim s = "" then [] else strSplitOn s ", ") := by
  refine ⟨?_, ?_, rfl, fun s => rfl⟩
  · intro c
    constructor
    · intro hc
      simp only [csvFinalCols, mem_sortStrings, List.mem_filter,
        mem_dedupStrings] at hc
      obtain ⟨hcand, hfilt⟩ := hc
      have hveq : schema.lookup c = some "VARCHAR" := by
        simpa [beq_iff_eq] using hfilt
      simp only [csvCandidates, List.mem_append] at hcand
      rcases hcand with hstat | hheur
      · exact ⟨hveq, Or.inl hstat, static_not_ignored view c hstat⟩
      · rw [List.mem_filterMap] at hheur
        obtain ⟨ct, _hct, hif⟩ := hheur
        split at hif
        · rename_i hcond
          simp only [Option.some.injEq] at hif
          subst hif
          simp only [Bool.and_eq_true, beq_iff_eq, Bool.not_eq_true'] at hcond
          refine ⟨hveq, Or.inr hcond.2, ?_⟩
          intro hmem
          have h2 : ignoredColumns.contains ct.1 = true :=
            List.elem_eq_true_of_mem hmem
          rw [hcond.1.2] at h2
          exact Bool.false_ne_true h2
        · exact absurd hif (by simp)
    · rintro ⟨hv, hor, hni⟩
      simp only [csvFinalCols, mem_sortStrings, List.mem_filter,
        mem_dedupStrings]
      refine ⟨?_, by simp [beq_iff_eq, hv]⟩
      simp only [csvCandidates, List.mem_append]
      rcases hor with hstat | hends
      · exact Or.inl hstat
      · refine Or.inr (List.mem_filterMap.mpr
          ⟨(c, "VARCHAR"), mem_of_lookup_eq_some schema c "VARCHAR" hv, ?_⟩)
        have hcont : ignoredColumns.contains c = false := by
          cases hcc : ignoredColumns.contains c with
          | true => exact absurd (List.mem_of_elem_eq_true hcc) hni
          | false => rfl
        rw [if_pos]
        simp only [beq_self_eq_true, Bool.true_and, hcont, Bool.not_false,
          Bool.true_and, hends]
  · intro c v hc
    have hcc : (csvFinalCols view schema).contains c = true :=
      List.elem_eq_true_of_mem hc
    simp only [viewCell, hcc, if_true]

/-- Example parquet schema for scenario E1 (a `cards` file with
`colors`, `types`, `subtypes` VARCHAR columns). -/
def exCardsSchema : List (String × String) :=
  [("uuid", "VARCHAR"), ("name", "VARCHAR"), ("colors", "VARCHAR"),
   ("types", "VARCHAR"), ("subtypes", "VARCHAR"), ("text", "VARCHAR"),
   ("manaValue", "DOUBLE")]

/-- Witness for C4 at scenario E1: the schema hypothesis holds for a
concrete cards file, the selection rule instance follows from the claim
theorem, and the registered view maps `colors = "R, U"` to
`["R", "U"]`, `types = ""` to `[]` and `subtypes = NULL` to `[]`. -/
theorem C4_csv_list_transform_witness :
    (exCardsSchema.map Prod.fst).Nodup
    ∧ ("colors" ∈ csvFinalCols "cards" exCardsSchema ↔
        (exCardsSchema.lookup "colors" = some "VARCHAR"
          ∧ ("colors" ∈ staticListColumns "cards" ∨ strEndsWith "colors" "s" = true)
          ∧ "colors" ∉ ignoredColumns))
    ∧ viewCell "cards" exCardsSchema "colors" (some "R, U") = .arr ["R", "U"]
    ∧ viewCell "cards" exCardsSchema "types" (some "") = .arr []
    ∧ viewCell "cards" exCardsSchema "subtypes" none = .arr [] :=
  ⟨by decide,
   (C4_csv_list_transform "cards" exCardsSchema (by decide)).1 "colors",
   by decide, by decide, by decide⟩

/-! ## Legalities UNPIVOT view (`Connection._register_legalities_view`)

The generated SQL is
`SELECT uuid, format, status FROM (UNPIVOT ... ON <format cols> INTO
NAME format VALUE status) WHERE status IS NOT NULL`; its row-level
semantics over the wide parquet source (a `uuid` column plus one
`Option String` status per format column) is embedded below. -/

/-- Rows of the registered `card_legalities` view for a wide source:
for each source row and each format column whose status is non-null,
one `(uuid, format, status)` triple. -/
def legalitiesViewRows (formatCols : List String)
    (rows : List (String × List (Option String))) : List (String × String × String) :=
  rows.flatMap (fun r => (formatCols.zip r.2).filterMap
    (fun fs => fs.2.map (fun st => (r.1, fs.1, st))))

/-- Proof helper: the `(uuid, format)` keys contributed by one wide row. -/
def legRowKeys (u : String) (cols : List String) (sts : List (Option String)) :
    List (String × String) :=
  (cols.zip sts).filterMap (fun fs => fs.2.map (fun _ => (u, fs.1)))

theorem legRow_map_keys (u : String) (cols : List String) (sts : List (Option String)) :
    ((cols.zip sts).filterMap (fun fs => fs.2.map (fun st => (u, fs.1, st)))).map
        (fun t => (t.1, t.2.1))
      = legRowKeys u cols sts := by
  rw [legRowKeys, List.map_filterMap]
  congr 1
  funext fs
  cases fs.2 <;> rfl

theorem mem_legRowKeys (u : String) (cols : List String) (sts : List (Option String))
    (x : String × String) (hx : x ∈ legRowKeys u cols sts) :
    x.1 = u ∧ x.2 ∈ cols := by
  rw [legRowKeys, List.mem_filterMap] at hx
  obtain ⟨fs, hfs, hmap⟩ := hx
  cases h2 : fs.2 with
  | none =>
    rw [h2] at hmap
    exact Option.noConfusion hmap
  | some s =>
    rw [h2] at hmap
    have hmap2 : some ((u, fs.1) : String × String) = some x := hmap
    injection hmap2 with h3
    subst h3
    exact ⟨rfl, (List.of_mem_zip hfs).1⟩

theorem legRowKeys_nodup (u : String) :
    ∀ (cols : List String) (sts : List (Option String)),
      cols.Nodup → (legRowKeys u cols sts).Nodup
  | [], _, _ => by
    show (List.filterMap _ []).Nodup
    simp
  | c :: cs, [], _ => by
    show (List.filterMap _ []).Nodup
    simp
  | c :: cs, st :: sts, hc => by
    simp only [List.nodup_cons] at hc
    cases st with
    | none =>
      show (legRowKeys u cs sts).Nodup
      exact legRowKeys_nodup u cs sts hc.2
    | some s =>
      show ((u, c) :: legRowKeys u cs sts).Nodup
      rw [List.nodup_cons]
      constructor
      · intro hmem
        have := mem_legRowKeys u cs sts (u, c) hmem
        exact hc.1 this.2
      · exact legRowKeys_nodup u cs sts hc.2

theorem mem_legRow (u : String) (cols : List String) (sts : List (Option String))
    (x : String × String × String) :
    x ∈ (cols.zip sts).filterMap (fun fs => fs.2.map (fun st => (u, fs.1, st))) ↔
      x.1 = u ∧ (x.2.1, some x.2.2) ∈ cols.zip sts := by
  rw [List.mem_filterMap]
  constructor
  · rintro ⟨fs, hfs, hmap⟩
    cases h2 : fs.2 with
    | none =>
      rw [h2] at hmap
      exact Option.noConfusion hmap
    | some s =>
      rw [h2] at hmap
      have hmap2 : some ((u, fs.1, s) : String × String × String) = some x := hmap
      injection hmap2 with h3
      subst h3
      refine ⟨rfl, ?_⟩
      have : fs = (fs.1, some s) := by
        cases fs; simp at h2; simp [h2]
      rw [← this]
      exact hfs
  · rintro ⟨h1, h2⟩
    refine ⟨(x.2.1, some x.2.2), h2, ?_⟩
    simp [← h1]

/-- Claim C3: legalities tallness.  For a wide legalities source with
pairwise-distinct format column names (from DESCRIBE) and
pairwise-distinct uuids (the wide table is keyed by uuid), a triple
`(u, f, s)` is in the registered view exactly when the source row for
`u` holds status `s` in column `f`, every view row carries a (non-null)
status by construction, and the view has no two rows with the same
`(uuid, format)` pair — together: exactly one row per non-null
`(uuid, format)` source pair. -/
theorem C3_legalities_tallness (formatCols : List String)
    (rows : List (String × List (Option String)))
    (hf : formatCols.Nodup) (hu : (rows.map Prod.fst).Nodup) :
    (∀ u f s, (u, f, s) ∈ legalitiesViewRows formatCols rows ↔
        ∃ sts, (u, sts) ∈ rows ∧ (f, some s) ∈ formatCols.zip sts)
    ∧ ((legalitiesViewRows formatCols rows).map (fun t => (t.1, t.2.1))).Nodup := by
  constructor
  · intro u f s
    rw [legalitiesViewRows, List.mem_flatMap]
    constructor
    · rintro ⟨r, hr, hin⟩
      have h := (mem_legRow r.1 formatCols r.2 (u, f, s)).mp hin
      simp only at h
      obtain ⟨h1, h2⟩ := h
      subst h1
      exact ⟨r.2, hr, h2⟩
    · rintro ⟨sts, hr, hzip⟩
      refine ⟨(u, sts), hr, ?_⟩
      exact (mem_legRow u formatCols sts (u, f, s)).mpr ⟨rfl, hzip⟩
  · rw [legalitiesViewRows, List.map_flatMap]
    rw [List.nodup_flatMap]
    constructor
    · intro r _hr
      rw [legRow_map_keys]
      exact legRowKeys_nodup r.1 formatCols r.2 hf
    · have hp : List.Pairwise (fun a b : String × List (Option String) => a.1 ≠ b.1) rows :=
        List.pairwise_map.mp hu
      refine hp.imp ?_
      intro a b hab
      rw [Function.onFun, legRow_map_keys, legRow_map_keys]
      intro x hxa hxb
      have ha := mem_legRowKeys a.1 formatCols a.2 x hxa
      have hb := mem_legRowKeys b.1 formatCols b.2 x hxb
      exact hab (ha.1 ▸ hb.1 ▸ rfl)

/-- Wide legalities input of scenario E3. -/
def exLegFormatCols : List String := ["modern", "legacy", "vintage"]

/-- Wide legalities row of scenario E3:
`{uuid: "u1", modern: "Legal", legacy: null, vintage: "Restricted"}`. -/
def exLegRows : List (String × List (Option String)) :=
  [("u1", [some "Legal", none, some "Restricted"])]

/-- Witness for C3 at scenario E3: the hypotheses hold, the view is
exactly `[(u1, modern, Legal), (u1, vintage, Restricted)]`, and the
membership characterization follows from the claim theorem. -/
theorem C3_legalities_tallness_witness :
    exLegFormatCols.Nodup ∧ (exLegRows.map Prod.fst).Nodup
    ∧ (legalitiesViewRows exLegFormatCols exLegRows
        = [("u1", "modern", "Legal"), ("u1", "vintage", "Restricted")])
    ∧ (("u1", "modern", "Legal") ∈ legalitiesViewRows exLegFormatCols exLegRows ↔
        ∃ sts, ("u1", sts) ∈ exLegRows ∧ ("modern", some "Legal") ∈ exLegFormatCols.zip sts) :=
  ⟨by decide, by decide, by decide,
   (C3_legalities_tallness exLegFormatCols exLegRows (by decide) (by decide)).1
     "u1" "modern" "Legal"⟩

/-! ## Prices ingestion (`src/mtg_json_tools/queries/prices.py`)

JSON values are modelled by `PVal`; Python dicts are association lists
in insertion order (CPython dicts preserve it, keys are unique).  The
streaming flattener `_stream_flatten_prices` is embedded level by
level, one definition per loop nest; the reference flattener is built
from the specification text and compared for multiset equality. -/

/-- Dynamic JSON value. -/
inductive PVal where
  | null
  | bool (b : Bool)
  | num (q : ℚ)
  | str (s : String)
  | arr (xs : List PVal)
  | obj (fields : List (String × PVal))

/-- Null test (`price is not None` in the source). -/
def PVal.isNull : PVal → Bool
  | .null => true
  | _ => false

/-- Fields of a JSON object; any non-object has none (used by the
spec-modelled reference flattener). -/
def objFields : PVal → List (String × PVal)
  | .obj fs => fs
  | _ => []

/-- One emitted NDJSON line of the flattener. -/
structure PriceRow where
  uuid : String
  source : String
  provider : String
  currency : PVal
  category : String
  finish : String
  date : String
  price : PVal

/-- Innermost loop of `_stream_flatten_prices`: `for date, price in
date_prices.items(): if price is not None: emit(...)`. -/
def streamDatePrices (u source provider : String) (currency : PVal)
    (cat finish : String) (dps : List (String × PVal)) : List PriceRow :=
  dps.filterMap (fun dp =>
    match dp.2 with
    | .null => none
    | p => some ⟨u, source, provider, currency, cat, finish, dp.1, p⟩)

/-- Finish loop: `for finish, date_prices in category_data.items(): if
not isinstance(date_prices, dict): continue`. -/
def streamFinishRows (u source provider : String) (currency : PVal)
    (cat : String) (finishes : List (String × PVal)) : List PriceRow :=
  finishes.flatMap (fun fd =>
    match fd.2 with
    | .obj dps => streamDatePrices u source provider currency cat fd.1 dps
    | _ => [])

/-- Category step: `category_data = price_data.get(category_name); if
not isinstance(category_data, dict): continue`. -/
def streamCategoryRows (u source provider : String) (currency : PVal)
    (pd : List (String × PVal)) (cat : String) : List PriceRow :=
  match pd.lookup cat with
  | some (.obj finishes) => streamFinishRows u source provider currency cat finishes
  | _ => []

/-- Provider step: `if not isinstance(price_data, dict): continue;
currency = price_data.get("currency", "USD"); for category_name in
("buylist", "retail"): ...`. -/
def streamProviderRows (u source provider : String) (priceData : PVal) : List PriceRow :=
  match priceData with
  | .obj pd =>
    ["buylist", "retail"].flatMap
      (streamCategoryRows u source provider ((pd.lookup "currency").getD (.str "USD")) pd)
  | _ => []

/-- Source step: `for provider, price_data in providers.items()` with
the `isinstance(providers, dict)` guard. -/
def streamSourceRows (u source : String) (providers : PVal) : List PriceRow :=
  match providers with
  | .obj provs => provs.flatMap (fun pp => streamProviderRows u source pp.1 pp.2)
  | _ => []

/-- Embedding of `_stream_flatten_prices(data, out)`: the list of rows
written to the NDJSON stream, in emission order. -/
def streamFlattenPrices (data : List (String × PVal)) : List PriceRow :=
  data.flatMap (fun uf =>
    match uf.2 with
    | .obj sources => sources.flatMap (fun sp => streamSourceRows uf.1 sp.1 sp.2)
    | _ => [])

/-- Modelled from the spec: the naïve all-in-memory flattener of §4.5 /
property 7 (the reference side of the equivalence; no streaming
counterpart exists in the repository).  First collect every
`(uuid, source, provider)` triple with its provider entry. -/
def priceTriples (data : List (String × PVal)) :
    List (String × String × String × List (String × PVal)) :=
  data.flatMap (fun uf =>
    (objFields uf.2).flatMap (fun sp =>
      (objFields sp.2).map (fun pp => (uf.1, sp.1, pp.1, objFields pp.2))))

/-- Modelled from the spec: for one `(uuid, source, provider)` triple,
remember `currency` (default `"USD"`); for each category in
`{buylist, retail}`, for each `(finish, date, price)` with `price`
non-null, emit one row. -/
def rowsOfTriple (t : String × String × String × List (String × PVal)) : List PriceRow :=
  ["buylist", "retail"].flatMap (fun cat =>
    (objFields ((t.2.2.2.lookup cat).getD .null)).flatMap (fun fd =>
      (objFields fd.2).filterMap (fun dp =>
        if dp.2.isNull then none
        else some ⟨t.1, t.2.1, t.2.2.1, (t.2.2.2.lookup "currency").getD (.str "USD"),
          cat, fd.1, dp.1, dp.2⟩)))

/-- Modelled from the spec: the reference all-in-memory flattening. -/
def refFlattenPrices (data : List (String × PVal)) : List PriceRow :=
  (priceTriples data).flatMap rowsOfTriple

theorem streamDatePrices_eq (u source provider : String) (currency : PVal)
    (cat finish : String) (dps : List (String × PVal)) :
    streamDatePrices u source provider currency cat finish dps
      = dps.filterMap (fun dp =>
          if dp.2.isNull then none
          else some ⟨u, source, provider, currency, cat, finish, dp.1, dp.2⟩) := by
  rw [streamDatePrices]
  apply congrArg (fun f => List.filterMap f dps)
  funext dp
  cases dp with
  | mk d p => cases p <;> rfl

theorem streamCategoryRows_eq (u source provider : String) (currency : PVal)
    (pd : List (String × PVal)) (cat : String) :
    streamCategoryRows u source provider currency pd cat
      = (objFields ((pd.lookup cat).getD .null)).flatMap (fun fd =>
          (objFields fd.2).filterMap (fun dp =>
            if dp.2.isNull then none
            else some ⟨u, source, provider, currency, cat, fd.1, dp.1, dp.2⟩)) := by
  rw [streamCategoryRows]
  cases h : pd.lookup cat with
  | none => rfl
  | some v =>
    cases v with
    | obj finishes =>
      unfold streamFinishRows
      show _ = finishes.flatMap _
      apply congrArg (List.flatMap finishes)
      funext fd
      cases h2 : fd.2 with
      | obj dps => exact streamDatePrices_eq u source provider currency cat fd.1 dps
      | null => rfl
      | bool b => rfl
      | num q => rfl
      | str s => rfl
      | arr xs => rfl
    | null => rfl
    | bool b => rfl
    | num q => rfl
    | str s => rfl
    | arr xs => rfl

theorem streamProviderRows_eq (u source provider : String) (priceData : PVal) :
    streamProviderRows u source provider priceData
      = rowsOfTriple (u, source, provider, objFields priceData) := by
  cases priceData with
  | obj pd =>
    rw [streamProviderRows, rowsOfTriple]
    apply congrArg (List.flatMap ["buylist", "retail"])
    funext cat
    exact streamCategoryRows_eq u source provider _ pd cat
  | null => rfl
  | bool b => rfl
  | num q => rfl
  | str s => rfl
  | arr xs => rfl

/-- Claim C5: prices ingestion equivalence.  For every input document,
the streaming flattener emits exactly the multiset of rows produced by
the reference all-in-memory nested-loop flattening of the spec (in
fact the very same list). -/
theorem C5_prices_ingestion_equivalence (data : List (String × PVal)) :
    (↑(streamFlattenPrices data) : Multiset PriceRow) = ↑(refFlattenPrices data) := by
  apply congrArg Multiset.ofList
  rw [refFlattenPrices, priceTriples, List.flatMap_assoc]
  rw [streamFlattenPrices]
  apply congrArg (List.flatMap data)
  funext uf
  rw [List.flatMap_assoc]
  cases h : uf.2 with
  | obj sources =>
    show sources.flatMap _ = (objFields (PVal.obj sources)).flatMap _
    apply congrArg (List.flatMap sources)
    funext sp
    rw [List.flatMap_map]
    cases h2 : sp.2 with
    | obj provs =>
      show provs.flatMap _ = (objFields (PVal.obj provs)).flatMap _
      apply congrArg (List.flatMap provs)
      funext pp
      exact streamProviderRows_eq uf.1 sp.1 pp.1 pp.2
    | null => rfl
    | bool b => rfl
    | num q => rfl
    | str s => rfl
    | arr xs => rfl
  | null => rfl
  | bool b => rfl
  | num q => rfl
  | str s => rfl
  | arr xs => rfl

/-! ## Cache (`src/mtg_json_tools/cache.py`)

`load_json` is modelled for a present plain-text cached file: parse the
content; on success return it, on any parse failure delete the file and
raise.  JSON syntactic validity (CPython `json.loads` acceptance) is
modelled by a fuel-based recursive-descent checker over `List Char`. -/

/-- JSON insignificant whitespace. -/
def jsonWs (s : List Char) : List Char :=
  s.dropWhile (fun c => (c == ' ') || (c == '\t') || (c == '\n') || (c == '\r'))

/-- Scan a JSON string body after the opening quote; returns the rest
after the closing quote (escapes skip the next char). -/
def jsonStringBody : Nat → List Char → Option (List Char)
  | 0, _ => none
  | _f + 1, [] => none
  | f + 1, c :: rest =>
    if c == '"' then some rest
    else if c == '\\' then
      match rest with
      | [] => none
      | _ :: rest2 => jsonStringBody f rest2
    else jsonStringBody f rest

/-- Scan a JSON number (sign, integer part, optional fraction and
exponent). -/
def jsonNumber (s : List Char) : Option (List Char) :=
  let s1 := match s with | '-' :: r => r | _ => s
  let ds := s1.takeWhile Char.isDigit
  let r1 := s1.dropWhile Char.isDigit
  if ds.isEmpty then none
  else
    let r2 : Option (List Char) :=
      match r1 with
      | '.' :: rr =>
        if (rr.takeWhile Char.isDigit).isEmpty then none
        else some (rr.dropWhile Char.isDigit)
      | _ => some r1
    match r2 with
    | none => none
    | some r3 =>
      match r3 with
      | 'e' :: rr | 'E' :: rr =>
        let rr2 := match rr with | '+' :: q => q | '-' :: q => q | _ => rr
        if (rr2.takeWhile Char.isDigit).isEmpty then none
        else some (rr2.dropWhile Char.isDigit)
      | _ => some r3

/-- Parsing mode: a value, the members of an object after `{`, or the
elements of an array after `[`. -/
inductive JMode where
  | val
  | members
  | elems

/-- Fuel-based recursive-descent JSON syntax checker; returns the
remaining input after one value / member list / element list. -/
def jsonP : Nat → JMode → List Char → Option (List Char)
  | 0, _, _ => none
  | f + 1, .val, s0 =>
    let s := jsonWs s0
    (match s with
     | '{' :: r =>
       (match jsonWs r with
        | '}' :: rr => some rr
        | r2 => jsonP f .members r2)
     | '[' :: r =>
       (match jsonWs r with
        | ']' :: rr => some rr
        | r2 => jsonP f .elems r2)
     | '"' :: r => jsonStringBody (f + 1) r
     | _ =>
       if ['t', 'r', 'u', 'e'].isPrefixOf s then some (s.drop 4)
       else if ['f', 'a', 'l', 's', 'e'].isPrefixOf s then some (s.drop 5)
       else if ['n', 'u', 'l', 'l'].isPrefixOf s then some (s.drop 4)
       else jsonNumber s)
  | f + 1, .members, s0 =>
    (match jsonWs s0 with
     | '"' :: r =>
       (match jsonStringBody (f + 1) r with
        | none => none
        | some r2 =>
          (match jsonWs r2 with
           | ':' :: r3 =>
             (match jsonP f .val r3 with
              | none => none
              | some r4 =>
                (match jsonWs r4 with
                 | ',' :: r5 => jsonP f .members r5
                 | '}' :: r5 => some r5
                 | _ => none))
           | _ => none))
     | _ => none)
  | f + 1, .elems, s0 =>
    (match jsonP f .val s0 with
     | none => none
     | some r =>
       (match jsonWs r with
        | ',' :: r2 => jsonP f .elems r2
        | ']' :: r2 => some r2
        | _ => none))

/-- Model of CPython `json.loads` acceptance: one JSON value followed
only by whitespace. -/
def jsonLoads (s : String) : Option Unit :=
  match jsonP (2 * s.data.length + 8) .val s.data with
  | none => none
  | some r => if (jsonWs r).isEmpty then some () else none

/-- Errors surfaced by the cache model (both are `FileNotFoundError`
in the source; the spec names them `NotCached` / `CorruptCache`). -/
inductive CacheErr where
  | notCached
  | corruptCache
deriving DecidableEq

/-- Embedding of `CacheManager.load_json` over the one cached file the
call touches (state: its content if present).  A missing file (offline)
raises `NotCached`; a present file that fails to parse is deleted
(`path.unlink`) and `CorruptCache` is raised; otherwise the parsed
content is returned and the file kept. -/
def load_json (file : Option String) : Except CacheErr Unit × Option String :=
  match file with
  | none => (.error .notCached, none)
  | some content =>
    match jsonLoads content with
    | some _ => (.ok (), some content)
    | none => (.error .corruptCache, none)

/-- Claim C6: corrupt-cache self-heal.  For every cached file content
that fails to parse, `load_json` raises and the file no longer exists
after the call. -/
theorem C6_corrupt_cache_self_heal (content : String)
    (h : jsonLoads content = none) :
    load_json (some content) = (.error .corruptCache, none) := by
  simp [load_json, h]

/-- Witness for C6 at scenario E6: the truncated content
`'{"data": {'` fails to parse, and `load_json` on it raises with the
file deleted. -/
theorem C6_corrupt_cache_self_heal_witness :
    jsonLoads "\x7b\"data\": \x7b" = none
    ∧ load_json (some "\x7b\"data\": \x7b") = (.error .corruptCache, none) :=
  ⟨by decide, C6_corrupt_cache_self_heal "\x7b\"data\": \x7b" (by decide)⟩

/-! ## Download atomicity (`CacheManager._download_file`)

The filesystem effect of one download is the pair (tmp file, target
file); the body is the event sequence: create the tmp file, append each
streamed chunk, then either rename tmp over the target (success) or —
on any exception at any point — unlink the tmp file and re-raise. -/

/-- Filesystem state for one download: the `<name>.tmp` sibling and the
target file (byte lists, `none` = absent). -/
structure DlState where
  tmp : Option (List Nat)
  target : Option (List Nat)
deriving DecidableEq

/-- One filesystem step of `_download_file`. -/
inductive DlEvent where
  | openTmp
  | writeChunk (c : List Nat)
  | renameTmp
  | unlinkTmp

/-- Effect of one step: `open(tmp_dest, "wb")` truncates/creates the
tmp file; a chunk write appends; `tmp_dest.replace(dest)` atomically
moves tmp over the target; `tmp_dest.unlink(missing_ok=True)` removes
the tmp file. -/
def applyDlEvent : DlState → DlEvent → DlState
  | s, .openTmp => ⟨some [], s.target⟩
  | s, .writeChunk c => ⟨s.tmp.map (· ++ c), s.target⟩
  | s, .renameTmp => ⟨none, s.tmp⟩
  | s, .unlinkTmp => ⟨none, s.target⟩

/-- Event sequence of `_download_file` for a stream of chunks:
`failAfter = some k` means an exception (transport error, HTTP status
error or interrupt) fires after `k` chunk writes, triggering the
`except BaseException` cleanup; `none` is the success path ending in
the rename. -/
def downloadEvents (chunks : List (List Nat)) (failAfter : Option Nat) : List DlEvent :=
  match failAfter with
  | none => .openTmp :: (chunks.map .writeChunk) ++ [.renameTmp]
  | some k => .openTmp :: ((chunks.take k).map .writeChunk) ++ [.unlinkTmp]

/-- Final filesystem state of one download run, starting from target
content `t0` and no tmp file. -/
def runDownload (t0 : Option (List Nat)) (chunks : List (List Nat))
    (failAfter : Option Nat) : DlState :=
  (downloadEvents chunks failAfter).foldl applyDlEvent ⟨none, t0⟩

theorem foldl_writeChunks (t0 : Option (List Nat)) :
    ∀ (ws : List (List Nat)) (a : List Nat),
      (ws.map DlEvent.writeChunk).foldl applyDlEvent ⟨some a, t0⟩
        = ⟨some (a ++ ws.flatten), t0⟩
  | [], a => by simp [applyDlEvent]
  | w :: ws, a => by
    simp only [List.map_cons, List.foldl_cons, applyDlEvent, Option.map_some']
    rw [foldl_writeChunks t0 ws (a ++ w)]
    simp [List.append_assoc]

theorem scanl_writeChunks_target (t0 : Option (List Nat)) :
    ∀ (ws : List (List Nat)) (a : List Nat),
      ∀ st ∈ List.scanl applyDlEvent (⟨some a, t0⟩ : DlState)
          (ws.map DlEvent.writeChunk), st.target = t0
  | [], a => by simp [List.scanl]
  | w :: ws, a => by
    intro st hst
    simp only [List.map_cons, List.scanl_cons, List.mem_append,
      List.mem_singleton, applyDlEvent, Option.map_some'] at hst
    rcases hst with h | h
    · subst h
      rfl
    · exact scanl_writeChunks_target t0 ws (a ++ w) st h

/-- Claim C7: download atomicity.  A download failing after any number
of written chunks leaves no tmp file and the target exactly as before;
a successful download leaves no tmp file and the target holding the
full stream; and in every state before the final rename the target is
untouched (the target changes only by the rename of the fully written
tmp file). -/
theorem C7_download_atomicity (t0 : Option (List Nat))
    (chunks : List (List Nat)) (k : Nat) :
    (runDownload t0 chunks (some k) = ⟨none, t0⟩)
    ∧ (runDownload t0 chunks none = ⟨none, some chunks.flatten⟩)
    ∧ (∀ st ∈ List.scanl applyDlEvent (⟨none, t0⟩ : DlState)
          (.openTmp :: chunks.map .writeChunk), st.target = t0) := by
  refine ⟨?_, ?_, ?_⟩
  · rw [runDownload, downloadEvents]
    simp only [List.foldl_append, List.foldl_cons, List.foldl_nil]
    rw [show applyDlEvent ⟨none, t0⟩ .openTmp = ⟨some [], t0⟩ from rfl]
    rw [foldl_writeChunks t0 (chunks.take k) []]
    rfl
  · rw [runDownload, downloadEvents]
    simp only [List.foldl_append, List.foldl_cons, List.foldl_nil]
    rw [show applyDlEvent ⟨none, t0⟩ .openTmp = ⟨some [], t0⟩ from rfl]
    rw [foldl_writeChunks t0 chunks []]
    simp [applyDlEvent]
  · intro st hst
    rw [List.scanl_cons] at hst
    rcases List.mem_append.mp hst with h | h
    · rw [List.mem_singleton] at h
      subst h
      rfl
    · exact scanl_writeChunks_target t0 chunks [] st
        (by simpa [applyDlEvent] using h)

/-! ## Card bulk lookup (`CardQuery.get_by_uuids`, `queries/cards.py`)

The engine interaction is modelled as the ordered list of calls the
method makes (`ensure_views` registrations and `execute`/`execute_df`
statements), with the engine itself an oracle `exec`. -/

/-- Requested result shape (`as_dict` / `as_dataframe` flags). -/
inductive ResultShape where
  | models
  | dicts
  | frame
deriving DecidableEq

/-- One call against the engine. -/
inductive EngineEvent where
  | ensureViews (names : List String)
  | execute (sql : String) (params : List String)
deriving DecidableEq

/-- Embedding of `CardQuery.get_by_uuids(uuids, as_dict, as_dataframe)`:
the returned rows (via the oracle `exec`) and the engine calls made.
On empty input the models/dicts paths return `[]` immediately, but the
dataframe path runs `execute_df("SELECT * FROM cards WHERE FALSE")`;
otherwise `_ensure()` registers the cards view and the builder query
runs. -/
def getByUuids {ρ : Type} (exec : String → List String → List ρ)
    (uuids : List String) (shape : ResultShape) : List ρ × List EngineEvent :=
  if uuids.isEmpty then
    match shape with
    | .frame =>
      (exec "SELECT * FROM cards WHERE FALSE" [],
       [.execute "SELECT * FROM cards WHERE FALSE" []])
    | _ => ([], [])
  else
    (exec (((SQLBuilder.init "cards").where_in "uuid" uuids).build).1
        (((SQLBuilder.init "cards").where_in "uuid" uuids).build).2,
     [.ensureViews ["cards"],
      .execute (((SQLBuilder.init "cards").where_in "uuid" uuids).build).1
        (((SQLBuilder.init "cards").where_in "uuid" uuids).build).2])

/-- Claim C8 counterexample: with the empty uuid list and the dataframe
shape, `get_by_uuids` does execute a query against the engine
(`SELECT * FROM cards WHERE FALSE`), so the claim's "no query for every
requested result shape" is false at this input. -/
theorem C8_in_empty_counterexample :
    ((getByUuids (fun (_ : String) (_ : List String) => ([] : List Unit)) []
        .frame).2 = [.execute "SELECT * FROM cards WHERE FALSE" []])
    ∧ ((getByUuids (fun (_ : String) (_ : List String) => ([] : List Unit)) []
        .frame).2 ≠ []) := by
  constructor
  · rfl
  · decide

/-- Claim C8 as amended: on the empty uuid list the models and dicts
shapes return an empty result with no engine call at all; the dataframe
shape issues exactly the constant parameterless query
`SELECT * FROM cards WHERE FALSE` (no user value reaches the engine and
the result set is empty); and at the builder level `where_in` with an
empty value list appends the conjunct `FALSE` and no parameters. -/
theorem C8_in_empty_short_circuit {ρ : Type} (exec : String → List String → List ρ) :
    (getByUuids exec [] .models = ([], []))
    ∧ (getByUuids exec [] .dicts = ([], []))
    ∧ ((getByUuids exec [] .frame).2 = [.execute "SELECT * FROM cards WHERE FALSE" []])
    ∧ (∀ (b : SQLBuilder String) (col : String),
        (b.where_in col []).whereCs = b.whereCs ++ ["FALSE"]
        ∧ (b.where_in col []).params = b.params) := by
  refine ⟨rfl, rfl, rfl, ?_⟩
  intro b col
  exact ⟨rfl, rfl⟩

/-! ## Booster sheet picker (`_pick_from_sheet`, `booster/simulator.py`)

Randomness is modelled by an oracle `r : Nat → Nat` giving the index
chosen by `random.choices(remaining, weights, k=1)` at each step
(reduced modulo the current pool size), and by a shuffle oracle for the
`count >= len(uuids)` branch.  The non-duplication property holds for
every oracle. -/

/-- Booster sheet fields read by `_pick_from_sheet`: the `cards`
mapping `{uuid: weight}` (a Python dict: insertion-ordered, unique
keys) and `allowDuplicates` (default false). -/
structure BoosterSheet where
  cards : List (String × Int)
  allowDuplicates : Bool

/-- Model of `random.choices(uuids, weights=weights, k=count)` (with
replacement); the weighted draw is abstracted by the oracle. -/
def pickWithReplacement (r : Nat → Nat) (count : Nat) (uuids : List String) :
    List String :=
  (List.range count).map (fun i => uuids.getD (r i % uuids.length) "")

/-- Embedding of the without-replacement loop of `_pick_from_sheet`:
`for _ in range(min(count, len(remaining_uuids)))`: draw one uuid, find
its first index, pop it and its weight, repeat. -/
def pickNoDup (r : Nat → Nat) : Nat → Nat → List String → List Int → List String
  | _step, 0, _, _ => []
  | _step, _n + 1, [], _ => []
  | step, n + 1, rem@(_ :: _), wts =>
    let choice := rem.getD (r step % rem.length) ""
    choice :: pickNoDup r (step + 1) n
      (rem.eraseIdx (List.indexOf choice rem))
      (wts.eraseIdx (List.indexOf choice rem))

/-- Embedding of `_pick_from_sheet(sheet, count)`. -/
def pickFromSheet (r : Nat → Nat) (shuffleOracle : List String → List String)
    (sheet : BoosterSheet) (count : Nat) : List String :=
  if sheet.allowDuplicates then
    pickWithReplacement r count (sheet.cards.map Prod.fst)
  else if count ≥ (sheet.cards.map Prod.fst).length then
    shuffleOracle (sheet.cards.map Prod.fst)
  else
    pickNoDup r 0 (min count (sheet.cards.map Prod.fst).length)
      (sheet.cards.map Prod.fst) (sheet.cards.map Prod.snd)

theorem pickNoDup_spec (r : Nat → Nat) :
    ∀ (fuel step : Nat) (rem : List String) (wts : List Int),
      rem.Nodup → fuel ≤ rem.length →
      (pickNoDup r step fuel rem wts).length = fuel
      ∧ (pickNoDup r step fuel rem wts).Nodup
      ∧ ∀ x ∈ pickNoDup r step fuel rem wts, x ∈ rem
  | 0, step, rem, wts, _, _ => by simp [pickNoDup]
  | n + 1, step, [], wts, _, hle => by simp at hle
  | n + 1, step, y :: ys, wts, hnd, hle => by
    have hlenpos : 0 < (y :: ys).length := by simp
    have hidx : r step % (y :: ys).length < (y :: ys).length :=
      Nat.mod_lt _ hlenpos
    have hchoice : (y :: ys).getD (r step % (y :: ys).length) "" ∈ y :: ys := by
      rw [List.getD_eq_getElem _ _ hidx]
      exact List.getElem_mem _
    rw [pickNoDup]
    set choice := (y :: ys).getD (r step % (y :: ys).length) "" with hc
    rw [List.eraseIdx_indexOf_eq_erase]
    have hrem' : ((y :: ys).erase choice).Nodup := hnd.erase choice
    have hlen' : ((y :: ys).erase choice).length = (y :: ys).length - 1 :=
      List.length_erase_of_mem hchoice
    have hle' : n ≤ ((y :: ys).erase choice).length := by
      rw [hlen']
      omega
    obtain ⟨ih1, ih2, ih3⟩ :=
      pickNoDup_spec r n (step + 1) ((y :: ys).erase choice)
        (wts.eraseIdx (List.indexOf choice (y :: ys))) hrem' hle'
    refine ⟨by simp [ih1], ?_, ?_⟩
    · rw [List.nodup_cons]
      refine ⟨?_, ih2⟩
      intro hmem
      have : choice ∈ (y :: ys).erase choice := ih3 choice hmem
      rw [hnd.mem_erase_iff] at this
      exact this.1 rfl
    · intro x hx
      rcases List.mem_cons.mp hx with h | h
      · rw [h]; exact hchoice
      · exact List.mem_of_mem_erase (ih3 x h)

/-- Claim C9: booster sheet non-duplication.  With `allowDuplicates`
false and `count` below the pool size, `_pick_from_sheet` returns
exactly `count` uuids, with no repeats, all drawn from the sheet's uuid
set — for every randomness oracle. -/
theorem C9_booster_sheet_nodup (r : Nat → Nat)
    (shuffleOracle : List String → List String) (sheet : BoosterSheet)
    (count : Nat) (hdup : sheet.allowDuplicates = false)
    (hcount : count < (sheet.cards.map Prod.fst).length)
    (hnd : (sheet.cards.map Prod.fst).Nodup) :
    (pickFromSheet r shuffleOracle sheet count).length = count
    ∧ (pickFromSheet r shuffleOracle sheet count).Nodup
    ∧ ∀ x ∈ pickFromSheet r shuffleOracle sheet count,
        x ∈ sheet.cards.map Prod.fst := by
  have hmin : min count (sheet.cards.map Prod.fst).length = count :=
    Nat.min_eq_left (Nat.le_of_lt hcount)
  have h := pickNoDup_spec r (min count (sheet.cards.map Prod.fst).length) 0
    (sheet.cards.map Prod.fst) (sheet.cards.map Prod.snd) hnd
    (Nat.min_le_right _ _)
  rw [pickFromSheet, hdup]
  rw [if_neg (by simp : ¬ (false : Bool) = true)]
  rw [if_neg (by omega : ¬ count ≥ (sheet.cards.map Prod.fst).length)]
  rw [hmin]
  rw [hmin] at h
  exact h

/-- Example booster sheet for the C9 witness. -/
def exSheet : BoosterSheet := ⟨[("u1", 10), ("u2", 5), ("u3", 1)], false⟩

/-- Witness for C9 at a concrete sheet, count and oracle. -/
theorem C9_booster_sheet_nodup_witness :
    exSheet.allowDuplicates = false
    ∧ 2 < (exSheet.cards.map Prod.fst).length
    ∧ (exSheet.cards.map Prod.fst).Nodup
    ∧ ((pickFromSheet (fun n => n) id exSheet 2).length = 2
        ∧ (pickFromSheet (fun n => n) id exSheet 2).Nodup
        ∧ ∀ x ∈ pickFromSheet (fun n => n) id exSheet 2,
            x ∈ exSheet.cards.map Prod.fst) :=
  ⟨rfl, by decide, by decide,
   C9_booster_sheet_nodup (fun n => n) id exSheet 2 rfl (by decide) (by decide)⟩

/-! ## Pagination splicing (`queries/legalities.py`, `queries/prices.py`)

These four methods build their SQL with a Python f-string
`f"LIMIT {limit} OFFSET {offset}"` — no builder `limit()`/`offset()`
validation runs, the two integers are spliced into the SQL text, and
only the filter values travel as `$N` parameters.  Each embedding
returns the `(sql, params)` pair passed to `Connection.execute`; the
functions are total (the source has no raise / `InvalidArgument`
path). -/

/-- Embedding of `LegalityQuery._cards_by_status(format_name, status,
limit, offset)` (behind `banned_in`, `restricted_in`, `suspended_in`,
`not_legal_in`). -/
def cardsByStatusRun (formatName status : String) (limit offset : Int) :
    String × List String :=
  ("SELECT c.name, c.uuid FROM cards c " ++
   "JOIN card_legalities cl ON c.uuid = cl.uuid " ++
   "WHERE cl.format = $1 AND cl.status = $2 " ++
   "ORDER BY c.name ASC " ++
   "LIMIT " ++ toString limit ++ " OFFSET " ++ toString offset,
   [formatName, status])

/-- Embedding of `LegalityQuery.legal_in(format_name, limit, offset)`. -/
def legalInRun (formatName : String) (limit offset : Int) :
    String × List String :=
  ("SELECT DISTINCT c.* FROM cards c " ++
   "JOIN card_legalities cl ON c.uuid = cl.uuid " ++
   "WHERE cl.format = $1 AND cl.status = 'Legal' " ++
   "ORDER BY c.name ASC " ++
   "LIMIT " ++ toString limit ++ " OFFSET " ++ toString offset,
   [formatName])

/-- Embedding of `PriceQuery.cheapest_printings(provider, finish,
category, limit, offset)`. -/
def cheapestPrintingsRun (provider finish category : String)
    (limit offset : Int) : String × List String :=
  ("SELECT c.name, " ++
   "  arg_min(c.setCode, p.price) AS cheapest_set, " ++
   "  arg_min(c.number, p.price) AS cheapest_number, " ++
   "  arg_min(c.uuid, p.price) AS cheapest_uuid, " ++
   "  MIN(p.price) AS min_price " ++
   "FROM cards c " ++
   "JOIN prices_today p ON c.uuid = p.uuid " ++
   "WHERE p.provider = $1 AND p.finish = $2 AND p.category = $3 " ++
   "AND p.date = (SELECT MAX(date) FROM prices_today) " ++
   "GROUP BY c.name " ++
   "ORDER BY min_price ASC " ++
   "LIMIT " ++ toString limit ++ " OFFSET " ++ toString offset,
   [provider, finish, category])

/-- Embedding of `PriceQuery.most_expensive_printings(provider, finish,
category, limit, offset)`. -/
def mostExpensivePrintingsRun (provider finish category : String)
    (limit offset : Int) : String × List String :=
  ("SELECT c.name, " ++
   "  arg_max(c.setCode, p.price) AS priciest_set, " ++
   "  arg_max(c.number, p.price) AS priciest_number, " ++
   "  arg_max(c.uuid, p.price) AS priciest_uuid, " ++
   "  MAX(p.price) AS max_price " ++
   "FROM cards c " ++
   "JOIN prices_today p ON c.uuid = p.uuid " ++
   "WHERE p.provider = $1 AND p.finish = $2 AND p.category = $3 " ++
   "AND p.date = (SELECT MAX(date) FROM prices_today) " ++
   "GROUP BY c.name " ++
   "ORDER BY max_price DESC " ++
   "LIMIT " ++ toString limit ++ " OFFSET " ++ toString offset,
   [provider, finish, category])

/-- Claim C10: unvalidated pagination splicing.  For every `limit` and
`offset` value (negative included — these total functions never raise
`InvalidArgument`), the decimal string of both values appears verbatim
in the SQL each of the four methods sends to the engine, as the suffix
`LIMIT l OFFSET o`, while the parameter lists carry only the filter
strings. -/
theorem C10_pagination_splicing (formatName status provider finish category : String)
    (limit offset : Int) :
    (∃ pre, (cardsByStatusRun formatName status limit offset).1
        = pre ++ "LIMIT " ++ toString limit ++ " OFFSET " ++ toString offset)
    ∧ (cardsByStatusRun formatName status limit offset).2 = [formatName, status]
    ∧ (∃ pre, (legalInRun formatName limit offset).1
        = pre ++ "LIMIT " ++ toString limit ++ " OFFSET " ++ toString offset)
    ∧ (legalInRun formatName limit offset).2 = [formatName]
    ∧ (∃ pre, (cheapestPrintingsRun provider finish category limit offset).1
        = pre ++ "LIMIT " ++ toString limit ++ " OFFSET " ++ toString offset)
    ∧ (cheapestPrintingsRun provider finish category limit offset).2
        = [provider, finish, category]
    ∧ (∃ pre, (mostExpensivePrintingsRun provider finish category limit offset).1
        = pre ++ "LIMIT " ++ toString limit ++ " OFFSET " ++ toString offset)
    ∧ (mostExpensivePrintingsRun provider finish category limit offset).2
        = [provider, finish, category] :=
  ⟨⟨"SELECT c.name, c.uuid FROM cards c " ++
      "JOIN card_legalities cl ON c.uuid = cl.uuid " ++
      "WHERE cl.format = $1 AND cl.status = $2 " ++
      "ORDER BY c.name ASC ", rfl⟩, rfl,
   ⟨"SELECT DISTINCT c.* FROM cards c " ++
      "JOIN card_legalities cl ON c.uuid = cl.uuid " ++
      "WHERE cl.format = $1 AND cl.status = 'Legal' " ++
      "ORDER BY c.name ASC ", rfl⟩, rfl,
   ⟨"SELECT c.name, " ++
      "  arg_min(c.setCode, p.price) AS cheapest_set, " ++
      "  arg_min(c.number, p.price) AS cheapest_number, " ++
      "  arg_min(c.uuid, p.price) AS cheapest_uuid, " ++
      "  MIN(p.price) AS min_price " ++
      "FROM cards c " ++
      "JOIN prices_today p ON c.uuid = p.uuid " ++
      "WHERE p.provider = $1 AND p.finish = $2 AND p.category = $3 " ++
      "AND p.date = (SELECT MAX(date) FROM prices_today) " ++
      "GROUP BY c.name " ++
      "ORDER BY min_price ASC ", rfl⟩, rfl,
   ⟨"SELECT c.name, " ++
      "  arg_max(c.setCode, p.price) AS priciest_set, " ++
      "  arg_max(c.number, p.price) AS priciest_number, " ++
      "  arg_max(c.uuid, p.price) AS priciest_uuid, " ++
      "  MAX(p.price) AS max_price " ++
      "FROM cards c " ++
      "JOIN prices_today p ON c.uuid = p.uuid " ++
      "WHERE p.provider = $1 AND p.finish = $2 AND p.category = $3 " ++
      "AND p.date = (SELECT MAX(date) FROM prices_today) " ++
      "GROUP BY c.name " ++
      "ORDER BY max_price DESC ", rfl⟩, rfl⟩
